import Mathlib

/-!
# Verification of the reference-counted checkpoint storage

Shallow embedding of `packages/arb-avm-cpp/avm/src/checkpoint/checkpointstorage.cpp`.

The C++ code implements a reference-counted, content-addressed store on top of
RocksDB.  The RocksDB engine is modelled as an association list from keys to raw
byte records (`Store`), with `lookupStore` / `putStore` / `delStore` standing for
`Get` / `Put`+`Commit` / `Delete`+`Commit` of a working engine (the C++ code
asserts that `Put`, `Delete` and `Commit` succeed, so in reachable executions the
engine write operations are total).  Bytes are `Fin 256`, matching
`unsigned char`; the `uint32_t` reference count is a `Nat` reduced mod `2 ^ 32`
exactly where the C++ unsigned arithmetic wraps.

`assert(results.stored_value == value)` in `CheckpointStorage::saveValue` is a
fatal abort; `saveValue` therefore returns an `Option`, with `none` for the
aborted execution.
-/

namespace CheckpointStorage

/-- A byte, `unsigned char` in the C++ source. -/
abbrev Byte := Fin 256

/-- A byte string: `std::vector<unsigned char>` or `std::string` in the source. -/
abbrev Bytes := List Byte

/-- Statuses of the underlying RocksDB engine (`rocksdb::Status`).  Only the
codes relevant to this layer are distinguished: `ok`, `notFound`, and two
representative failure codes (`ioError`, `corruption`) that the engine can
return from a read. -/
inductive RStatus where
  | ok
  | notFound
  | ioError
  | corruption
deriving DecidableEq, Repr

/-- Result of `CheckpointStorage::getValue` (struct `GetResults`). -/
structure GetResults where
  reference_count : Nat
  status : RStatus
  stored_value : Bytes
deriving DecidableEq, Repr

/-- Result of `CheckpointStorage::saveValue` / `incrementReference`
(struct `SaveResults`, brace-initialised as `{count, status, key}`). -/
structure SaveResults where
  reference_count : Nat
  status : RStatus
  storage_key : Bytes
deriving DecidableEq, Repr

/-- Result of `CheckpointStorage::deleteValue` (struct `DeleteResults`,
brace-initialised as `{count, status}`). -/
structure DeleteResults where
  reference_count : Nat
  status : RStatus
deriving DecidableEq, Repr

/-- The underlying engine state: an association list from keys to raw records. -/
abbrev Store := List (Bytes × Bytes)

/-- Engine read: the value stored for a key, if any. -/
def lookupStore (st : Store) (k : Bytes) : Option Bytes :=
  match st with
  | [] => none
  | (k', v) :: rest => if k' = k then some v else lookupStore rest k

/-- Engine write (`Put` + `Commit`): binds `k` to `v`, overwriting any
existing binding. -/
def putStore (st : Store) (k v : Bytes) : Store :=
  match st with
  | [] => [(k, v)]
  | (k', v') :: rest => if k' = k then (k, v) :: rest else (k', v') :: putStore rest k v

/-- Engine delete (`Delete` + `Commit`): removes the binding for `k`, if any. -/
def delStore (st : Store) (k : Bytes) : Store :=
  match st with
  | [] => []
  | (k', v') :: rest => if k' = k then delStore rest k else (k', v') :: delStore rest k

/-- The low byte of a natural number, as written by `memcpy` of a `uint32_t`. -/
def byteOf (c : Nat) : Byte := ⟨c % 256, Nat.mod_lt _ (by norm_num)⟩

/-- Embedding of `serializeCountAndValue`: a 4-byte little-endian `uint32_t`
count prefix (the `memcpy(&output_vector[0], &count, 4)`) followed by the raw
value bytes. -/
def serializeCountAndValue (count : Nat) (value : Bytes) : Bytes :=
  byteOf count :: byteOf (count / 256) :: byteOf (count / 65536) ::
    byteOf (count / 16777216) :: value

/-- Embedding of `parseCountAndValue`: an empty record decodes to
`(0, empty)`; otherwise the first 4 bytes are read little-endian as the
`uint32_t` count (`memcpy(&ref_count, c_string, 4)`) and the remainder is the
value.  Records of length 1–3 never arise from this layer (every written
record is `serializeCountAndValue` output, of length ≥ 4); for totality they
decode as if zero-extended, mirroring the `c_str()` null terminator. -/
def parseCountAndValue (s : Bytes) : Nat × Bytes :=
  match s with
  | [] => (0, [])
  | [b0] => (b0.val, [])
  | [b0, b1] => (b0.val + 256 * b1.val, [])
  | [b0, b1, b2] => (b0.val + 256 * b1.val + 65536 * b2.val, [])
  | b0 :: b1 :: b2 :: b3 :: rest =>
      (b0.val + 256 * b1.val + 65536 * b2.val + 16777216 * b3.val, rest)

/-- Raw engine read of `txn_db->Get`: `(ok, record)` when the key is bound,
`(notFound, empty)` otherwise.  A faulty engine could instead return any
non-`ok` status; `getResultsOfRead` below is the part of `getValue` that
processes an arbitrary read outcome. -/
def engineGet (st : Store) (k : Bytes) : RStatus × Bytes :=
  match lookupStore st k with
  | some v => (RStatus.ok, v)
  | none => (RStatus.notFound, [])

/-- Body of `CheckpointStorage::getValue` after the `txn_db->Get` call, as a
function of the raw read outcome: on `ok` the record is decoded and the `ok`
status passed through; on ANY other status the code constructs a fresh
`rocksdb::Status().NotFound()` and returns it with count 0 and empty value. -/
def getResultsOfRead (read : RStatus × Bytes) : GetResults :=
  if read.1 = RStatus.ok then
    ⟨(parseCountAndValue read.2).1, read.1, (parseCountAndValue read.2).2⟩
  else
    ⟨0, RStatus.notFound, []⟩

/-- Embedding of `CheckpointStorage::getValue`. -/
def getValue (st : Store) (hash_key : Bytes) : GetResults :=
  getResultsOfRead (engineGet st hash_key)

/-- Embedding of `CheckpointStorage::saveValueWithRefCount`: serializes the
count with the value and commits the record; `saveKeyValuePair` asserts the
put and commit succeed, so the status is `ok`. -/
def saveValueWithRefCount (st : Store) (updated_ref_count : Nat)
    (hash_key value : Bytes) : SaveResults × Store :=
  let updated_entry := serializeCountAndValue updated_ref_count value
  (⟨updated_ref_count, RStatus.ok, hash_key⟩, putStore st hash_key updated_entry)

/-- Embedding of `CheckpointStorage::incrementReference`: read the current
record; on `ok`, rewrite it with the count incremented (`uint32_t` addition,
hence mod `2 ^ 32`); otherwise return the read status with count 0, leaving
the store untouched. -/
def incrementReference (st : Store) (hash_key : Bytes) : SaveResults × Store :=
  let results := getValue st hash_key
  if results.status = RStatus.ok then
    saveValueWithRefCount st ((results.reference_count + 1) % 2 ^ 32) hash_key
      results.stored_value
  else
    (⟨0, results.status, hash_key⟩, st)

/-- Embedding of `CheckpointStorage::saveValue`: if a record exists, the code
`assert`s the stored value equals the argument (fatal abort on mismatch,
modelled as `none`) and increments the count (`uint32_t` wrap mod `2 ^ 32`);
if absent it creates the record with count 1. -/
def saveValue (st : Store) (hash_key value : Bytes) :
    Option (SaveResults × Store) :=
  let results := getValue st hash_key
  if results.status = RStatus.ok then
    if results.stored_value = value then
      some (saveValueWithRefCount st ((results.reference_count + 1) % 2 ^ 32)
        hash_key value)
    else
      none
  else
    some (saveValueWithRefCount st 1 hash_key value)

/-- Embedding of `CheckpointStorage::deleteValue`: on `ok`, a count below 2
physically deletes the record and reports 0; otherwise the record is rewritten
with the count decremented and the decremented count reported.  On a failed
read the status is passed back with count 0 and the store untouched. -/
def deleteValue (st : Store) (hash_key : Bytes) : DeleteResults × Store :=
  let results := getValue st hash_key
  if results.status = RStatus.ok then
    if results.reference_count < 2 then
      (⟨0, RStatus.ok⟩, delStore st hash_key)
    else
      let updated_ref_count := results.reference_count - 1
      let r := saveValueWithRefCount st updated_ref_count hash_key
        results.stored_value
      (⟨updated_ref_count, r.1.status⟩, r.2)
  else
    (⟨0, results.status⟩, st)

/-- A public mutation of the store, for trace semantics. -/
inductive Op where
  | save (k v : Bytes)
  | incr (k : Bytes)
  | del (k : Bytes)
deriving DecidableEq, Repr

/-- One mutation step; `none` when `saveValue` hits its fatal assertion. -/
def runOp (st : Store) : Op → Option Store
  | Op.save k v => (saveValue st k v).map Prod.snd
  | Op.incr k => some (incrementReference st k).2
  | Op.del k => some (deleteValue st k).2

/-- Running a sequence of mutations from a starting store; `none` as soon as
one step aborts fatally. -/
def runOps (st : Store) : List Op → Option Store
  | [] => some st
  | op :: rest =>
    match runOp st op with
    | some st' => runOps st' rest
    | none => none

/-! ## Basic lemmas about the engine model -/

theorem lookupStore_putStore_self (st : Store) (k v : Bytes) :
    lookupStore (putStore st k v) k = some v := by
  induction st with
  | nil => simp [putStore, lookupStore]
  | cons hd rest ih =>
    obtain ⟨k', v'⟩ := hd
    by_cases h : k' = k
    · simp [putStore, lookupStore, h]
    · simp [putStore, lookupStore, h, ih]

theorem lookupStore_putStore_ne (st : Store) (k k' v : Bytes) (h : k' ≠ k) :
    lookupStore (putStore st k v) k' = lookupStore st k' :=  by
  induction st with
  | nil => simp [putStore, lookupStore, Ne.symm h]
  | cons hd rest ih =>
    obtain ⟨k'', v''⟩ := hd
    by_cases hk : k'' = k
    · subst hk
      simp [putStore, lookupStore, Ne.symm h]
    · simp [putStore, lookupStore, hk, ih]

theorem lookupStore_delStore_self (st : Store) (k : Bytes) :
    lookupStore (delStore st k) k = none := by
  induction st with
  | nil => simp [delStore, lookupStore]
  | cons hd rest ih =>
    obtain ⟨k', v'⟩ := hd
    by_cases h : k' = k
    · simp [delStore, h, ih]
    · simp [delStore, lookupStore, h, ih]

theorem lookupStore_delStore_ne (st : Store) (k k' : Bytes) (h : k' ≠ k) :
    lookupStore (delStore st k) k' = lookupStore st k' := by
  induction st with
  | nil => simp [delStore]
  | cons hd rest ih =>
    obtain ⟨k'', v''⟩ := hd
    by_cases hk : k'' = k
    · subst hk
      simp [delStore, lookupStore, Ne.symm h, ih]
    · simp [delStore, lookupStore, hk, ih]

theorem putStore_putStore (st : Store) (k a b : Bytes) :
    putStore (putStore st k a) k b = putStore st k b := by
  induction st with
  | nil => simp [putStore]
  | cons hd rest ih =>
    obtain ⟨k', v'⟩ := hd
    by_cases h : k' = k
    · simp [putStore, h]
    · simp [putStore, h, ih]

theorem putStore_of_lookup_eq (st : Store) (k v : Bytes)
    (h : lookupStore st k = some v) : putStore st k v = st := by
  induction st with
  | nil => simp [lookupStore] at h
  | cons hd rest ih =>
    obtain ⟨k', v'⟩ := hd
    by_cases hk : k' = k
    · subst hk
      simp [lookupStore] at h
      simp [putStore, h]
    · simp [lookupStore, hk] at h
      simp [putStore, hk, ih h]

/-! ## Lemmas about the record encoding -/

theorem parseCountAndValue_serializeCountAndValue (count : Nat) (value : Bytes)
    (h : count < 2 ^ 32) :
    parseCountAndValue (serializeCountAndValue count value) = (count, value) := by
  simp only [serializeCountAndValue, parseCountAndValue, byteOf, Prod.mk.injEq]
  exact ⟨by omega, trivial⟩

theorem parseCountAndValue_count_lt (s : Bytes) :
    (parseCountAndValue s).1 < 2 ^ 32 := by
  match s with
  | [] => simp [parseCountAndValue]
  | [b0] =>
    have := b0.isLt
    simp only [parseCountAndValue]
    omega
  | [b0, b1] =>
    have := b0.isLt
    have := b1.isLt
    simp only [parseCountAndValue]
    omega
  | [b0, b1, b2] =>
    have := b0.isLt
    have := b1.isLt
    have := b2.isLt
    simp only [parseCountAndValue]
    omega
  | b0 :: b1 :: b2 :: b3 :: rest =>
    have := b0.isLt
    have := b1.isLt
    have := b2.isLt
    have := b3.isLt
    simp only [parseCountAndValue]
    omega

/-! ## Lemmas about getValue -/

theorem getValue_absent (st : Store) (k : Bytes) (h : lookupStore st k = none) :
    getValue st k = ⟨0, RStatus.notFound, []⟩ := by
  simp [getValue, engineGet, h, getResultsOfRead]

theorem getValue_present (st : Store) (k r : Bytes)
    (h : lookupStore st k = some r) :
    getValue st k =
      ⟨(parseCountAndValue r).1, RStatus.ok, (parseCountAndValue r).2⟩ := by
  simp [getValue, engineGet, h, getResultsOfRead]

theorem getValue_ok_elim (st : Store) (k : Bytes) (c : Nat) (v : Bytes)
    (h : getValue st k = ⟨c, RStatus.ok, v⟩) :
    ∃ r, lookupStore st k = some r ∧ parseCountAndValue r = (c, v) := by
  cases hl : lookupStore st k with
  | none =>
    rw [getValue_absent st k hl] at h
    exact absurd (congrArg GetResults.status h) (by simp)
  | some r =>
    rw [getValue_present st k r hl] at h
    refine ⟨r, rfl, ?_⟩
    have h1 := congrArg GetResults.reference_count h
    have h2 := congrArg GetResults.stored_value h
    simp only at h1 h2
    rw [Prod.ext_iff]
    exact ⟨h1, h2⟩

theorem getValue_count_lt (st : Store) (k : Bytes) :
    (getValue st k).reference_count < 2 ^ 32 := by
  cases hl : lookupStore st k with
  | none => rw [getValue_absent st k hl]; norm_num
  | some r => rw [getValue_present st k r hl]; exact parseCountAndValue_count_lt r

/-! ## Unfolding lemmas for the public operations -/

theorem saveValue_absent (st : Store) (k v : Bytes)
    (h : lookupStore st k = none) :
    saveValue st k v =
      some (⟨1, RStatus.ok, k⟩, putStore st k (serializeCountAndValue 1 v)) := by
  simp [saveValue, getValue_absent st k h, saveValueWithRefCount]

theorem saveValue_match (st : Store) (k : Bytes) (c : Nat) (v : Bytes)
    (h : getValue st k = ⟨c, RStatus.ok, v⟩) :
    saveValue st k v =
      some (⟨(c + 1) % 2 ^ 32, RStatus.ok, k⟩,
        putStore st k (serializeCountAndValue ((c + 1) % 2 ^ 32) v)) := by
  simp [saveValue, h, saveValueWithRefCount]

theorem saveValue_mismatch (st : Store) (k : Bytes) (c : Nat) (v w : Bytes)
    (h : getValue st k = ⟨c, RStatus.ok, v⟩) (hw : v ≠ w) :
    saveValue st k w = none := by
  simp [saveValue, h, hw]

theorem incrementReference_present (st : Store) (k : Bytes) (c : Nat) (v : Bytes)
    (h : getValue st k = ⟨c, RStatus.ok, v⟩) :
    incrementReference st k =
      (⟨(c + 1) % 2 ^ 32, RStatus.ok, k⟩,
        putStore st k (serializeCountAndValue ((c + 1) % 2 ^ 32) v)) := by
  simp [incrementReference, h, saveValueWithRefCount]

theorem incrementReference_absent (st : Store) (k : Bytes)
    (h : lookupStore st k = none) :
    incrementReference st k = (⟨0, RStatus.notFound, k⟩, st) := by
  simp [incrementReference, getValue_absent st k h]

theorem deleteValue_low (st : Store) (k : Bytes) (c : Nat) (v : Bytes)
    (h : getValue st k = ⟨c, RStatus.ok, v⟩) (hc : c < 2) :
    deleteValue st k = (⟨0, RStatus.ok⟩, delStore st k) := by
  simp [deleteValue, h, hc]

theorem deleteValue_high (st : Store) (k : Bytes) (c : Nat) (v : Bytes)
    (h : getValue st k = ⟨c, RStatus.ok, v⟩) (hc : ¬ c < 2) :
    deleteValue st k =
      (⟨c - 1, RStatus.ok⟩, putStore st k (serializeCountAndValue (c - 1) v)) := by
  simp [deleteValue, h, hc, saveValueWithRefCount]

theorem deleteValue_absent (st : Store) (k : Bytes)
    (h : lookupStore st k = none) :
    deleteValue st k = (⟨0, RStatus.notFound⟩, st) := by
  simp [deleteValue, getValue_absent st k h]

/-! ## Repeated saves of the same key and value -/

theorem runOps_replicate_save (k v : Bytes) :
    ∀ (n : Nat) (st : Store) (c : Nat), c < 2 ^ 32 →
      lookupStore st k = some (serializeCountAndValue c v) →
      runOps st (List.replicate n (Op.save k v)) =
        some (putStore st k (serializeCountAndValue ((c + n) % 2 ^ 32) v))
  | 0, st, c, hc, hl => by
      have h0 : (c + 0) % 2 ^ 32 = c := by omega
      rw [h0, putStore_of_lookup_eq st k _ hl]
      rfl
  | n + 1, st, c, hc, hl => by
      have hget : getValue st k = ⟨c, RStatus.ok, v⟩ := by
        rw [getValue_present st k _ hl,
          parseCountAndValue_serializeCountAndValue c v hc]
      rw [List.replicate_succ]
      simp only [runOps, runOp, saveValue_match st k c v hget, Option.map]
      have hc' : (c + 1) % 2 ^ 32 < 2 ^ 32 := Nat.mod_lt _ (by norm_num)
      rw [runOps_replicate_save k v n _ _ hc' (lookupStore_putStore_self st k _)]
      rw [putStore_putStore]
      have heq : ((c + 1) % 2 ^ 32 + n) % 2 ^ 32 = (c + (n + 1)) % 2 ^ 32 := by
        omega
      rw [heq]

theorem runOps_replicate_save_absent (k v : Bytes) (n : Nat) (st : Store)
    (h : lookupStore st k = none) (hn : 1 ≤ n) :
    runOps st (List.replicate n (Op.save k v)) =
      some (putStore st k (serializeCountAndValue (n % 2 ^ 32) v)) := by
  obtain ⟨m, rfl⟩ : ∃ m, n = m + 1 := ⟨n - 1, by omega⟩
  rw [List.replicate_succ]
  simp only [runOps, runOp, saveValue_absent st k v h, Option.map]
  rw [runOps_replicate_save k v m _ 1 (by norm_num)
    (lookupStore_putStore_self st k _)]
  rw [putStore_putStore]
  have heq : (1 + m) % 2 ^ 32 = (m + 1) % 2 ^ 32 := by omega
  rw [heq]

/-! ## The reference-count invariant on reachable stores

`StoreInv st n` says every record in `st` is well-formed serializer output
whose count lies in `[1, n]`.  It is preserved by every operation as long as
the bound stays below `2 ^ 32`, i.e. as long as no count can wrap. -/

/-- Every record of `st` is `serializeCountAndValue c v` with `1 ≤ c ≤ n`. -/
def StoreInv (st : Store) (n : Nat) : Prop :=
  ∀ k r, lookupStore st k = some r →
    ∃ c v, r = serializeCountAndValue c v ∧ 1 ≤ c ∧ c ≤ n

theorem StoreInv_mono (st : Store) (m m' : Nat) (h : StoreInv st m)
    (hm : m ≤ m') : StoreInv st m' := by
  intro k r hr
  obtain ⟨c, v, h1, h2, h3⟩ := h k r hr
  exact ⟨c, v, h1, h2, by omega⟩

theorem StoreInv_putStore (st : Store) (m : Nat) (hinv : StoreInv st m)
    (k v : Bytes) (c : Nat) (hc1 : 1 ≤ c) (hcm : c ≤ m + 1) :
    StoreInv (putStore st k (serializeCountAndValue c v)) (m + 1) := by
  intro k' r hr
  by_cases hk : k' = k
  · subst hk
    rw [lookupStore_putStore_self] at hr
    injection hr with hr
    exact ⟨c, v, hr.symm, hc1, hcm⟩
  · rw [lookupStore_putStore_ne st k k' _ hk] at hr
    obtain ⟨c₀, v₀, h1, h2, h3⟩ := hinv k' r hr
    exact ⟨c₀, v₀, h1, h2, by omega⟩

theorem StoreInv_delStore (st : Store) (m : Nat) (hinv : StoreInv st m)
    (k : Bytes) : StoreInv (delStore st k) m := by
  intro k' r hr
  by_cases hk : k' = k
  · subst hk
    rw [lookupStore_delStore_self] at hr
    cases hr
  · rw [lookupStore_delStore_ne st k k' hk] at hr
    exact hinv k' r hr

theorem runOp_StoreInv (st st' : Store) (op : Op) (m : Nat)
    (hm : m + 1 < 2 ^ 32) (hinv : StoreInv st m) (h : runOp st op = some st') :
    StoreInv st' (m + 1) := by
  cases op with
  | save k v =>
    cases hl : lookupStore st k with
    | none =>
      rw [runOp, saveValue_absent st k v hl] at h
      simp only [Option.map] at h
      injection h with h
      subst h
      exact StoreInv_putStore st m hinv k v 1 (by omega) (by omega)
    | some r =>
      obtain ⟨c, v₀, hcv, hc1, hcm⟩ := hinv k r hl
      subst hcv
      have hget : getValue st k = ⟨c, RStatus.ok, v₀⟩ := by
        rw [getValue_present st k _ hl,
          parseCountAndValue_serializeCountAndValue c v₀ (by omega)]
      by_cases hv : v₀ = v
      · subst hv
        rw [runOp, saveValue_match st k c v₀ hget] at h
        simp only [Option.map] at h
        injection h with h
        subst h
        have hmod : (c + 1) % 2 ^ 32 = c + 1 := Nat.mod_eq_of_lt (by omega)
        rw [hmod]
        exact StoreInv_putStore st m hinv k v₀ (c + 1) (by omega) (by omega)
      · rw [runOp, saveValue_mismatch st k c v₀ v hget hv] at h
        simp only [Option.map] at h
        cases h
  | incr k =>
    cases hl : lookupStore st k with
    | none =>
      rw [runOp, incrementReference_absent st k hl] at h
      injection h with h
      subst h
      exact StoreInv_mono st m (m + 1) hinv (by omega)
    | some r =>
      obtain ⟨c, v₀, hcv, hc1, hcm⟩ := hinv k r hl
      subst hcv
      have hget : getValue st k = ⟨c, RStatus.ok, v₀⟩ := by
        rw [getValue_present st k _ hl,
          parseCountAndValue_serializeCountAndValue c v₀ (by omega)]
      rw [runOp, incrementReference_present st k c v₀ hget] at h
      injection h with h
      subst h
      have hmod : (c + 1) % 2 ^ 32 = c + 1 := Nat.mod_eq_of_lt (by omega)
      rw [hmod]
      exact StoreInv_putStore st m hinv k v₀ (c + 1) (by omega) (by omega)
  | del k =>
    cases hl : lookupStore st k with
    | none =>
      rw [runOp, deleteValue_absent st k hl] at h
      injection h with h
      subst h
      exact StoreInv_mono st m (m + 1) hinv (by omega)
    | some r =>
      obtain ⟨c, v₀, hcv, hc1, hcm⟩ := hinv k r hl
      subst hcv
      have hget : getValue st k = ⟨c, RStatus.ok, v₀⟩ := by
        rw [getValue_present st k _ hl,
          parseCountAndValue_serializeCountAndValue c v₀ (by omega)]
      by_cases hc2 : c < 2
      · rw [runOp, deleteValue_low st k c v₀ hget hc2] at h
        injection h with h
        subst h
        exact StoreInv_mono _ m (m + 1) (StoreInv_delStore st m hinv k) (by omega)
      · rw [runOp, deleteValue_high st k c v₀ hget hc2] at h
        injection h with h
        subst h
        exact StoreInv_putStore st m hinv k v₀ (c - 1) (by omega) (by omega)

theorem runOps_StoreInv :
    ∀ (ops : List Op) (st st' : Store) (m : Nat),
      StoreInv st m → m + ops.length < 2 ^ 32 → runOps st ops = some st' →
      StoreInv st' (m + ops.length)
  | [], st, st', m, hinv, _, h => by
      simp only [runOps] at h
      injection h with h
      subst h
      simpa using hinv
  | op :: rest, st, st', m, hinv, hb, h => by
      cases hop : runOp st op with
      | none =>
        simp only [runOps, hop] at h
        cases h
      | some st₁ =>
        simp only [runOps, hop] at h
        have hlen : (op :: rest).length = rest.length + 1 := by simp
        have h1 : StoreInv st₁ (m + 1) :=
          runOp_StoreInv st st₁ op m (by rw [hlen] at hb; omega) hinv hop
        have h2 := runOps_StoreInv rest st₁ st' (m + 1) h1
          (by rw [hlen] at hb; omega) h
        have heq : m + (op :: rest).length = m + 1 + rest.length := by
          rw [hlen]; omega
        rw [heq]
        exact h2

/-! ## Keys that are never saved stay absent

Only `saveValue` can create a record: `incrementReference` and `deleteValue`
on an absent key leave the store untouched, and operations on other keys do
not affect the binding of `k`. -/

theorem runOp_preserve_absent (st st' : Store) (op : Op) (k : Bytes)
    (hop : ∀ v, op ≠ Op.save k v) (h : runOp st op = some st')
    (habs : lookupStore st k = none) : lookupStore st' k = none := by
  cases op with
  | save k' v =>
    have hk : k ≠ k' := by
      intro hh
      exact hop v (by rw [hh])
    cases hl : lookupStore st k' with
    | none =>
      rw [runOp, saveValue_absent st k' v hl] at h
      simp only [Option.map] at h
      injection h with h
      subst h
      rw [lookupStore_putStore_ne st k' k _ hk]
      exact habs
    | some r =>
      have hget := getValue_present st k' r hl
      by_cases hv : (parseCountAndValue r).2 = v
      · rw [hv] at hget
        rw [runOp, saveValue_match st k' (parseCountAndValue r).1 v hget] at h
        simp only [Option.map] at h
        injection h with h
        subst h
        rw [lookupStore_putStore_ne st k' k _ hk]
        exact habs
      · rw [runOp, saveValue_mismatch st k' (parseCountAndValue r).1
          (parseCountAndValue r).2 v hget hv] at h
        simp only [Option.map] at h
        cases h
  | incr k' =>
    cases hl : lookupStore st k' with
    | none =>
      rw [runOp, incrementReference_absent st k' hl] at h
      injection h with h
      subst h
      exact habs
    | some r =>
      have hk : k ≠ k' := by
        intro hh
        subst hh
        rw [habs] at hl
        cases hl
      have hget := getValue_present st k' r hl
      rw [runOp, incrementReference_present st k' _ _ hget] at h
      injection h with h
      subst h
      rw [lookupStore_putStore_ne st k' k _ hk]
      exact habs
  | del k' =>
    cases hl : lookupStore st k' with
    | none =>
      rw [runOp, deleteValue_absent st k' hl] at h
      injection h with h
      subst h
      exact habs
    | some r =>
      have hk : k ≠ k' := by
        intro hh
        subst hh
        rw [habs] at hl
        cases hl
      have hget := getValue_present st k' r hl
      by_cases hc : (parseCountAndValue r).1 < 2
      · rw [runOp, deleteValue_low st k' _ _ hget hc] at h
        injection h with h
        subst h
        rw [lookupStore_delStore_ne st k' k hk]
        exact habs
      · rw [runOp, deleteValue_high st k' _ _ hget hc] at h
        injection h with h
        subst h
        rw [lookupStore_putStore_ne st k' k _ hk]
        exact habs

theorem runOps_preserve_absent :
    ∀ (ops : List Op) (st st' : Store) (k : Bytes),
      (∀ v, Op.save k v ∉ ops) → runOps st ops = some st' →
      lookupStore st k = none → lookupStore st' k = none
  | [], st, st', k, _, h, habs => by
      simp only [runOps] at h
      injection h with h
      subst h
      exact habs
  | op :: rest, st, st', k, hnos, h, habs => by
      cases hop : runOp st op with
      | none =>
        simp only [runOps, hop] at h
        cases h
      | some st₁ =>
        simp only [runOps, hop] at h
        have hhd : ∀ v, op ≠ Op.save k v := by
          intro v hv
          exact hnos v (by rw [hv]; exact List.mem_cons_self _ _)
        have habs₁ := runOp_preserve_absent st st₁ op k hhd hop habs
        have htl : ∀ v, Op.save k v ∉ rest := by
          intro v hv
          exact hnos v (List.mem_cons_of_mem _ hv)
        exact runOps_preserve_absent rest st₁ st' k htl h habs₁

/-! ## The claims -/

/-- C1 (counterexample): the invariant "a record exists iff its reference
count is at least 1" fails on a reachable state.  Saving the same key/value
`2 ^ 32` times wraps the `uint32_t` count to 0: the resulting store still
holds the record, but its reference count is 0. -/
theorem c1_counterexample :
    runOps [] (List.replicate (2 ^ 32) (Op.save [0] [1])) =
      some [([0], serializeCountAndValue 0 [1])]
    ∧ (lookupStore [([0], serializeCountAndValue 0 [1])] [0]).isSome = true
    ∧ (getValue [([0], serializeCountAndValue 0 [1])] [0]).reference_count
        = 0 := by
  refine ⟨?_, by decide, by decide⟩
  have h := runOps_replicate_save_absent [0] [1] (2 ^ 32) [] rfl (by norm_num)
  rw [Nat.mod_self] at h
  exact h

/-- C1 (amended): for every store state reachable from the empty store by a
sequence of at most `2 ^ 32 - 1` `saveValue` / `incrementReference` /
`deleteValue` operations, a record for a key exists in the underlying store
iff its reference count is at least 1.  The length bound rules out exactly the
`uint32_t` wrap exhibited by the counterexample. -/
theorem c1_invariant (ops : List Op) (st : Store) (k : Bytes)
    (hlen : ops.length ≤ 2 ^ 32 - 1) (hrun : runOps [] ops = some st) :
    (lookupStore st k).isSome ↔ 1 ≤ (getValue st k).reference_count := by
  have hinv0 : StoreInv [] 0 := by
    intro k' r hr
    simp [lookupStore] at hr
  have hinv : StoreInv st (0 + ops.length) :=
    runOps_StoreInv ops [] st 0 hinv0 (by omega) hrun
  constructor
  · intro hs
    obtain ⟨r, hr⟩ := Option.isSome_iff_exists.mp hs
    obtain ⟨c, v, rfl, hc1, hcn⟩ := hinv k r hr
    rw [getValue_present st k _ hr,
      parseCountAndValue_serializeCountAndValue c v (by omega)]
    exact hc1
  · intro hc
    cases hl : lookupStore st k with
    | none =>
      rw [getValue_absent st k hl] at hc
      exact absurd hc (by decide)
    | some r => simp

theorem c1_invariant_witness :
    ([Op.save [0] [1]] : List Op).length ≤ 2 ^ 32 - 1
    ∧ runOps [] [Op.save [0] [1]] = some [([0], serializeCountAndValue 1 [1])]
    ∧ ((lookupStore [([0], serializeCountAndValue 1 [1])] [0]).isSome ↔
        1 ≤ (getValue [([0], serializeCountAndValue 1 [1])] [0]).reference_count) :=
  ⟨by norm_num, by decide, c1_invariant [Op.save [0] [1]] _ [0] (by norm_num) (by decide)⟩

/-- C2 (counterexample): when the underlying engine read fails with an I/O
error, `getValue` does not hand that status back: it returns a fresh
`NotFound` status instead (`rocksdb::Status().NotFound()` in the source). -/
theorem c2_counterexample :
    (getResultsOfRead (RStatus.ioError, [])).status = RStatus.notFound
    ∧ (getResultsOfRead (RStatus.ioError, [])).status ≠ RStatus.ioError := by
  decide

/-- C2 (amended): for every failing engine read (any status other than `ok`,
including I/O error and corruption), `getValue` discards the underlying
engine status and returns a `NotFound` result with count 0 and empty value,
masking the original failure. -/
theorem c2_status_masked (read : RStatus × Bytes) (h : read.1 ≠ RStatus.ok) :
    getResultsOfRead read = ⟨0, RStatus.notFound, []⟩ := by
  simp [getResultsOfRead, h]

theorem c2_status_masked_witness :
    (RStatus.corruption, ([3] : Bytes)).1 ≠ RStatus.ok
    ∧ getResultsOfRead (RStatus.corruption, [3]) = ⟨0, RStatus.notFound, []⟩ :=
  ⟨by decide, c2_status_masked (RStatus.corruption, [3]) (by decide)⟩

/-- C3 (counterexample): after `2 ^ 32` calls of `saveValue` with the same
key and value, starting from an empty store, the stored count is 0, not
`2 ^ 32`: the `uint32_t` count has wrapped. -/
theorem c3_counterexample :
    runOps [] (List.replicate (2 ^ 32) (Op.save [1] [2])) =
      some [([1], serializeCountAndValue 0 [2])]
    ∧ (getValue [([1], serializeCountAndValue 0 [2])] [1]).reference_count = 0
    ∧ (0 : Nat) ≠ 2 ^ 32 := by
  refine ⟨?_, by decide, by norm_num⟩
  have h := runOps_replicate_save_absent [1] [2] (2 ^ 32) [] rfl (by norm_num)
  rw [Nat.mod_self] at h
  exact h

/-- C3 (amended): for every key `k` and value `v`, starting from a state with
no record for `k`, after calling `saveValue(k, v)` `N` times with the same `v`
for any `N` with `1 ≤ N ≤ 2 ^ 32 - 1`, the stored count equals `N`; in
particular (`N = 1`) one call makes `getValue(k)` return count 1, value `v`
and status `ok`.  The upper bound on `N` rules out exactly the `uint32_t`
wrap exhibited by the counterexample. -/
theorem c3_repeated_save (st : Store) (k v : Bytes) (n : Nat)
    (habs : lookupStore st k = none) (h1 : 1 ≤ n) (h2 : n ≤ 2 ^ 32 - 1) :
    runOps st (List.replicate n (Op.save k v)) =
      some (putStore st k (serializeCountAndValue n v))
    ∧ getValue (putStore st k (serializeCountAndValue n v)) k =
        ⟨n, RStatus.ok, v⟩ := by
  have hmod : n % 2 ^ 32 = n := Nat.mod_eq_of_lt (by omega)
  constructor
  · have h := runOps_replicate_save_absent k v n st habs h1
    rw [hmod] at h
    exact h
  · rw [getValue_present _ k _ (lookupStore_putStore_self st k _),
      parseCountAndValue_serializeCountAndValue n v (by omega)]

theorem c3_repeated_save_witness :
    lookupStore [] [0] = none
    ∧ (1 : Nat) ≤ 1 ∧ (1 : Nat) ≤ 2 ^ 32 - 1
    ∧ (runOps [] (List.replicate 1 (Op.save [0] [7])) =
        some (putStore [] [0] (serializeCountAndValue 1 [7]))
      ∧ getValue (putStore [] [0] (serializeCountAndValue 1 [7])) [0] =
          ⟨1, RStatus.ok, [7]⟩) :=
  ⟨rfl, le_refl 1, by norm_num,
    c3_repeated_save [] [0] [7] 1 rfl (le_refl 1) (by norm_num)⟩

/-- C4 (confirmed): for every count in `[0, 2 ^ 32 - 1]` and every byte
sequence `value` (including the empty one), decoding the record produced by
encoding `(count, value)` yields exactly `(count, value)`. -/
theorem c4_round_trip (count : Nat) (value : Bytes) (h : count < 2 ^ 32) :
    parseCountAndValue (serializeCountAndValue count value) = (count, value) :=
  parseCountAndValue_serializeCountAndValue count value h

theorem c4_round_trip_witness :
    2 ^ 32 - 1 < 2 ^ 32
    ∧ parseCountAndValue (serializeCountAndValue (2 ^ 32 - 1) [5, 6]) =
        (2 ^ 32 - 1, [5, 6]) :=
  ⟨by norm_num, c4_round_trip (2 ^ 32 - 1) [5, 6] (by norm_num)⟩

/-- C5 (confirmed): for every key whose record has count strictly greater
than 1, `deleteValue` decrements the count by exactly 1, rewrites the record
with the stored value unchanged, reports the decremented count with status
`ok`, and a subsequent `getValue` still returns the original value. -/
theorem c5_decrement_preserves (st : Store) (k : Bytes) (c : Nat) (v : Bytes)
    (h : getValue st k = ⟨c, RStatus.ok, v⟩) (hc : 1 < c) :
    deleteValue st k =
      (⟨c - 1, RStatus.ok⟩, putStore st k (serializeCountAndValue (c - 1) v))
    ∧ getValue (putStore st k (serializeCountAndValue (c - 1) v)) k =
        ⟨c - 1, RStatus.ok, v⟩ := by
  have hlt : c < 2 ^ 32 := by
    have hcount := getValue_count_lt st k
    rw [h] at hcount
    simpa using hcount
  constructor
  · exact deleteValue_high st k c v h (by omega)
  · rw [getValue_present _ k _ (lookupStore_putStore_self st k _),
      parseCountAndValue_serializeCountAndValue (c - 1) v (by omega)]

theorem c5_decrement_preserves_witness :
    getValue [([0], serializeCountAndValue 3 [7])] [0] = ⟨3, RStatus.ok, [7]⟩
    ∧ (1 : Nat) < 3
    ∧ (deleteValue [([0], serializeCountAndValue 3 [7])] [0] =
        (⟨3 - 1, RStatus.ok⟩, putStore [([0], serializeCountAndValue 3 [7])] [0]
          (serializeCountAndValue (3 - 1) [7]))
      ∧ getValue (putStore [([0], serializeCountAndValue 3 [7])] [0]
          (serializeCountAndValue (3 - 1) [7])) [0] = ⟨3 - 1, RStatus.ok, [7]⟩) :=
  ⟨by decide, by norm_num,
    c5_decrement_preserves [([0], serializeCountAndValue 3 [7])] [0] 3 [7]
      (by decide) (by norm_num)⟩

/-- C6 (confirmed): for every key whose record has count at most 1,
`deleteValue` physically removes the record, reports count 0 with status
`ok`, and a subsequent `getValue` reports not-found. -/
theorem c6_decrement_to_zero (st : Store) (k : Bytes) (c : Nat) (v : Bytes)
    (h : getValue st k = ⟨c, RStatus.ok, v⟩) (hc : c ≤ 1) :
    deleteValue st k = (⟨0, RStatus.ok⟩, delStore st k)
    ∧ getValue (delStore st k) k = ⟨0, RStatus.notFound, []⟩ := by
  constructor
  · exact deleteValue_low st k c v h (by omega)
  · exact getValue_absent _ k (lookupStore_delStore_self st k)

theorem c6_decrement_to_zero_witness :
    getValue [([0], serializeCountAndValue 1 [9])] [0] = ⟨1, RStatus.ok, [9]⟩
    ∧ (1 : Nat) ≤ 1
    ∧ (deleteValue [([0], serializeCountAndValue 1 [9])] [0] =
        (⟨0, RStatus.ok⟩, delStore [([0], serializeCountAndValue 1 [9])] [0])
      ∧ getValue (delStore [([0], serializeCountAndValue 1 [9])] [0]) [0] =
          ⟨0, RStatus.notFound, []⟩) :=
  ⟨by decide, le_refl 1,
    c6_decrement_to_zero [([0], serializeCountAndValue 1 [9])] [0] 1 [9]
      (by decide) (le_refl 1)⟩

/-- C7 (confirmed): `incrementReference` on a key with no existing record
returns a `NotFound` failure with count 0 and leaves the store state
literally unchanged: no record is created. -/
theorem c7_increment_not_found (st : Store) (k : Bytes)
    (h : lookupStore st k = none) :
    incrementReference st k = (⟨0, RStatus.notFound, k⟩, st) :=
  incrementReference_absent st k h

theorem c7_increment_not_found_witness :
    lookupStore [([1], serializeCountAndValue 1 [2])] [0] = none
    ∧ incrementReference [([1], serializeCountAndValue 1 [2])] [0] =
        (⟨0, RStatus.notFound, [0]⟩, [([1], serializeCountAndValue 1 [2])]) :=
  ⟨by decide,
    c7_increment_not_found [([1], serializeCountAndValue 1 [2])] [0] (by decide)⟩

/-- C8 (confirmed): for every key `k` for which no record has ever been saved
(no `saveValue` on `k` occurs in the trace from the empty store), `getValue`
reports not-found — status `NotFound`, count 0, empty value. -/
theorem c8_never_saved (ops : List Op) (k : Bytes) (st : Store)
    (hnos : ∀ v, Op.save k v ∉ ops) (hrun : runOps [] ops = some st) :
    getValue st k = ⟨0, RStatus.notFound, []⟩ :=
  getValue_absent st k (runOps_preserve_absent ops [] st k hnos hrun rfl)

theorem c8_never_saved_witness :
    getValue [([1], serializeCountAndValue 1 [2])] [0] =
      ⟨0, RStatus.notFound, []⟩ :=
  c8_never_saved [Op.save [1] [2], Op.incr [0], Op.del [0]] [0]
    [([1], serializeCountAndValue 1 [2])]
    (by
      intro v hv
      rcases List.mem_cons.mp hv with h | hv2
      · injection h with h1 h2
        exact absurd h1 (by decide)
      · simp at hv2)
    (by decide)

/-- C9 (confirmed): for every key with an existing record storing value `v`,
`saveValue` with a byte-identical value passes the content-address assertion
and increments the count (modulo `2 ^ 32`, the `uint32_t` arithmetic of the
source); with any value not byte-identical to `v` the assertion fails and the
call aborts fatally (modelled as `none`), so the fatal path is unreachable
whenever the caller supplies the stored value. -/
theorem c9_content_address (st : Store) (k : Bytes) (c : Nat) (v w : Bytes)
    (h : getValue st k = ⟨c, RStatus.ok, v⟩) :
    (w = v → saveValue st k w =
      some (⟨(c + 1) % 2 ^ 32, RStatus.ok, k⟩,
        putStore st k (serializeCountAndValue ((c + 1) % 2 ^ 32) v)))
    ∧ (w ≠ v → saveValue st k w = none) := by
  constructor
  · intro hw
    subst hw
    exact saveValue_match st k c w h
  · intro hw
    exact saveValue_mismatch st k c v w h (Ne.symm hw)

theorem c9_content_address_witness :
    getValue [([4], serializeCountAndValue 1 [7])] [4] = ⟨1, RStatus.ok, [7]⟩
    ∧ saveValue [([4], serializeCountAndValue 1 [7])] [4] [7] =
        some (⟨2, RStatus.ok, [4]⟩,
          putStore [([4], serializeCountAndValue 1 [7])] [4]
            (serializeCountAndValue 2 [7]))
    ∧ saveValue [([4], serializeCountAndValue 1 [7])] [4] [8] = none :=
  ⟨by decide,
    by
      have h := (c9_content_address [([4], serializeCountAndValue 1 [7])] [4]
        1 [7] [7] (by decide)).1 rfl
      simpa using h,
    (c9_content_address [([4], serializeCountAndValue 1 [7])] [4]
      1 [7] [8] (by decide)).2 (by decide)⟩

/-- C10 (confirmed): for every key whose record currently has reference count
`2 ^ 32 - 1`, `incrementReference` — and likewise `saveValue` with the
matching value — wraps the `uint32_t` count modulo `2 ^ 32`: it commits a
record encoding count 0 and reports new count 0 with status `ok`, rather than
failing or saturating. -/
theorem c10_wraparound (st : Store) (k v : Bytes)
    (h : getValue st k = ⟨2 ^ 32 - 1, RStatus.ok, v⟩) :
    incrementReference st k =
      (⟨0, RStatus.ok, k⟩, putStore st k (serializeCountAndValue 0 v))
    ∧ saveValue st k v =
        some (⟨0, RStatus.ok, k⟩, putStore st k (serializeCountAndValue 0 v)) := by
  have hmod : (2 ^ 32 - 1 + 1) % 2 ^ 32 = 0 := by norm_num
  constructor
  · have h1 := incrementReference_present st k (2 ^ 32 - 1) v h
    rw [hmod] at h1
    exact h1
  · have h2 := saveValue_match st k (2 ^ 32 - 1) v h
    rw [hmod] at h2
    exact h2

theorem c10_wraparound_witness :
    getValue [([0], serializeCountAndValue (2 ^ 32 - 1) [5])] [0] =
      ⟨2 ^ 32 - 1, RStatus.ok, [5]⟩
    ∧ (incrementReference [([0], serializeCountAndValue (2 ^ 32 - 1) [5])] [0] =
        (⟨0, RStatus.ok, [0]⟩,
          putStore [([0], serializeCountAndValue (2 ^ 32 - 1) [5])] [0]
            (serializeCountAndValue 0 [5]))
      ∧ saveValue [([0], serializeCountAndValue (2 ^ 32 - 1) [5])] [0] [5] =
          some (⟨0, RStatus.ok, [0]⟩,
            putStore [([0], serializeCountAndValue (2 ^ 32 - 1) [5])] [0]
              (serializeCountAndValue 0 [5]))) :=
  ⟨by decide,
    c10_wraparound [([0], serializeCountAndValue (2 ^ 32 - 1) [5])] [0] [5]
      (by decide)⟩

end CheckpointStorage
